import Mathlib

/-!
Verification of the ETF-Dashboard analytics core: a shallow embedding in
Lean 4 of the pure computational functions of `options_analyzer.py` and
`app.py` (option-symbol parsing, Black-Scholes probability functions, IV
rank / percentile statistics, per-contract probability fields, and the
market-regime classification), together with theorems settling the spec's
claims about them.

Numeric values are modelled as exact numbers (`ℚ` where the computation is
rational, `ℝ` where logarithms, square roots and the normal CDF appear),
abstracting from IEEE-754 floating point.
-/

namespace ETFDash

/-! ## IV history statistics

`options_analyzer.py` lines 60-77 and `app.py` lines 64-76 each define a
rank and a percentile function over the IV-history rows returned by
`get_iv_history`, which are `(date, iv30)` pairs.  History rows are
modelled as `String × ℚ` pairs; the functions read only the second
component, exactly as the Python reads `row[1]`. -/

/-- A row of the `iv_history` table as returned by `get_iv_history`:
a `(date, iv30)` pair. -/
abbrev IVRow := String × ℚ

/-- Minimum of a nonempty list of values, as Python's `min(values)`:
fold of the binary `min` over the list. -/
def listMin (v : ℚ) (vs : List ℚ) : ℚ := vs.foldl min v

/-- Maximum of a nonempty list of values, as Python's `max(values)`. -/
def listMax (v : ℚ) (vs : List ℚ) : ℚ := vs.foldl max v

/-- Embedding of `calculate_iv_rank` (`options_analyzer.py` lines 60-68):
`None` when fewer than 2 history rows; `50.0` when the max equals the min;
otherwise `(current - min) / (max - min) * 100`. -/
def calculate_iv_rank (current_iv : ℚ) (iv_history : List IVRow) : Option ℚ :=
  if iv_history.length < 2 then none
  else
    match iv_history.map Prod.snd with
    | [] => none
    | v :: vs =>
      let iv_min := listMin v vs
      let iv_max := listMax v vs
      if iv_max = iv_min then some 50
      else some ((current_iv - iv_min) / (iv_max - iv_min) * 100)

/-- Embedding of `calculate_iv_percentile` (`options_analyzer.py` lines
71-77): `None` when fewer than 2 history rows; otherwise the count of
values strictly below `current_iv`, divided by the number of values,
times 100. -/
def calculate_iv_percentile (current_iv : ℚ) (iv_history : List IVRow) : Option ℚ :=
  if iv_history.length < 2 then none
  else
    let values := iv_history.map Prod.snd
    let below := values.countP (fun v => v < current_iv)
    some ((below : ℚ) / (values.length : ℚ) * 100)

/-- Embedding of `calc_iv_rank` (`app.py` lines 64-69).  Same computation
as `calculate_iv_rank` with the conditional written the other way round:
`... * 100 if hi != lo else 50.0`. -/
def calc_iv_rank (current : ℚ) (history : List IVRow) : Option ℚ :=
  if history.length < 2 then none
  else
    match history.map Prod.snd with
    | [] => none
    | v :: vs =>
      let lo := listMin v vs
      let hi := listMax v vs
      if hi ≠ lo then some ((current - lo) / (hi - lo) * 100)
      else some 50

/-- Embedding of `calc_iv_percentile` (`app.py` lines 72-76). -/
def calc_iv_percentile (current : ℚ) (history : List IVRow) : Option ℚ :=
  if history.length < 2 then none
  else
    let vals := history.map Prod.snd
    some ((vals.countP (fun v => v < current) : ℚ) / (vals.length : ℚ) * 100)

/-! ## Regime classification

`app.py` lines 535-542 inside `api_signals`: the regime label is chosen
from the risk-on breadth and risk-off breadth by a chain of `if/elif`. -/

/-- Embedding of the regime-label decision of `api_signals`
(`app.py` lines 535-542), a pure function of the pair
(risk-on breadth `ro`, risk-off breadth `rf`). -/
def regimeLabel (ro rf : ℚ) : String :=
  if ro > 50 ∧ rf < 50 then "RISK-ON"
  else if rf > 50 ∧ ro < 50 then "RISK-OFF"
  else if ro < 40 ∧ rf < 40 then "LIQUIDATION"
  else "MIXED"

/-! ## Option symbol codec

`parse_option_symbol` (`options_analyzer.py` lines 99-115 and `app.py`
lines 95-105, identical) matches the input against the regex
`^([A-Z]+)(\d{6})([CP])(\d{8})$`, returning `None` on no match, and
otherwise converts the six date digits with
`datetime.strptime(exp_str, "%y%m%d")` — which raises `ValueError` when
they do not form a valid calendar date — and the eight strike digits with
`int(strike_str) / 1000.0`.

Strings are modelled as `List Char`; digits are modelled as the ASCII
digits matched on OCC identifiers (abstracting from the Unicode digit
classes Python's `\d` additionally admits).  Python's `$` also accepts one
trailing newline, which the embedding reproduces. -/

/-- ASCII uppercase letter, as matched by `[A-Z]`. -/
def isUpperC (c : Char) : Bool := 'A' ≤ c && c ≤ 'Z'

/-- Numeric value of a digit character. -/
def digitVal? (c : Char) : Option Nat :=
  match c with
  | '0' => .some 0
  | '1' => .some 1
  | '2' => .some 2
  | '3' => .some 3
  | '4' => .some 4
  | '5' => .some 5
  | '6' => .some 6
  | '7' => .some 7
  | '8' => .some 8
  | '9' => .some 9
  | _ => .none

/-- ASCII digit `0`-`9`, as matched by `\d` on the identifiers in
scope: exactly the characters `digitVal?` assigns a value. -/
def isDigitC (c : Char) : Bool := (digitVal? c).isSome

/-- Digit character of a value below 10. -/
def valDigit (n : Nat) : Char :=
  match n with
  | 0 => '0' | 1 => '1' | 2 => '2' | 3 => '3' | 4 => '4'
  | 5 => '5' | 6 => '6' | 7 => '7' | 8 => '8' | 9 => '9' | _ => '*'

/-- Value of a digit string read left to right, as Python's `int(...)`
on a string of digits. -/
def digitsVal (ds : List Char) : Nat :=
  ds.foldl (fun acc c => 10 * acc + (digitVal? c).getD 0) 0

/-- The `k`-character zero-padded decimal rendering of `n % 10^k`, as
Python's `%02d`-style formatting produces for numbers in range. -/
def natToPad : Nat → Nat → List Char
  | 0, _ => []
  | k + 1, n => natToPad k (n / 10) ++ [valDigit (n % 10)]

/-- Gregorian leap-year rule, as applied by `datetime`. -/
def isLeapYear (y : Nat) : Bool := y % 4 = 0 && (y % 100 ≠ 0 || y % 400 = 0)

/-- Number of days in a month, as enforced by `datetime`. -/
def daysInMonth (y m : Nat) : Nat :=
  if m = 2 then (if isLeapYear y then 29 else 28)
  else if m = 4 ∨ m = 6 ∨ m = 9 ∨ m = 11 then 30
  else 31

/-- The year `datetime.strptime`'s `%y` assigns to a two-digit year:
00-68 land in the 2000s, 69-99 in the 1900s. -/
def centuryYear (yy : Nat) : Nat := if yy ≤ 68 then 2000 + yy else 1900 + yy

/-- `datetime.strptime(·, "%y%m%d")` succeeds on six digits `yy mm dd`
exactly when the month is 01-12 and the day is within the month. -/
def validYMD (yy mm dd : Nat) : Prop :=
  1 ≤ mm ∧ mm ≤ 12 ∧ 1 ≤ dd ∧ dd ≤ daysInMonth (centuryYear yy) mm

instance (yy mm dd : Nat) : Decidable (validYMD yy mm dd) := by
  unfold validYMD; infer_instance

/-- The parsed dict built by `parse_option_symbol`.  The expiration is
kept as the calendar triple held by the `datetime` value; the dict's
`expiration` string is its `"%Y-%m-%d"` rendering (`expirationString`). -/
structure ParsedOption where
  ticker : List Char
  expYear : Nat
  expMonth : Nat
  expDay : Nat
  option_type : String
  strike : ℚ
  deriving Repr, DecidableEq

/-- The `expiration` field of the returned dict:
`strftime("%Y-%m-%d")` of the parsed date. -/
def expirationString (c : ParsedOption) : List Char :=
  natToPad 4 c.expYear ++ ['-'] ++ natToPad 2 c.expMonth ++ ['-'] ++ natToPad 2 c.expDay

/-- Outcome of a call to `parse_option_symbol`: the `None` sentinel, a
parsed contract, or an uncaught `ValueError` escaping from
`datetime.strptime`. -/
inductive ParseOutcome where
  | noMatch
  | ok (c : ParsedOption)
  | exn
  deriving Repr, DecidableEq

/-- Embedding of `parse_option_symbol` (`options_analyzer.py` lines
99-115; `app.py` lines 95-105 is identical).  The regex
`^([A-Z]+)(\d{6})([CP])(\d{8})$` is decomposed directly: the greedy
`[A-Z]+` takes the maximal uppercase prefix (anything shorter puts a
letter where `\d{6}` requires a digit), and the remainder must be six
digits, `C` or `P`, and eight digits, with `$` also accepting one
trailing newline. -/
def parse_option_symbol (s : List Char) : ParseOutcome :=
  let body := if s.getLast? = some '\n' then s.dropLast else s
  let tick := body.takeWhile isUpperC
  let rest := body.dropWhile isUpperC
  let d6 := rest.take 6
  let cp := (rest.drop 6).take 1
  let d8 := rest.drop 7
  if tick ≠ [] ∧ rest.length = 15 ∧ d6.all isDigitC ∧ (cp = ['C'] ∨ cp = ['P']) ∧
      d8.all isDigitC then
    let yy := digitsVal (d6.take 2)
    let mm := digitsVal ((d6.drop 2).take 2)
    let dd := digitsVal (d6.drop 4)
    if validYMD yy mm dd then
      ParseOutcome.ok
        { ticker := tick
          expYear := centuryYear yy
          expMonth := mm
          expDay := dd
          option_type := if cp = ['C'] then "call" else "put"
          strike := (digitsVal d8 : ℚ) / 1000 }
    else ParseOutcome.exn
  else ParseOutcome.noMatch

/-- Modelled from the spec: the repository has no encoder, but the spec
states the invariant "re-encoding must reproduce the original
identifier" over the fields {underlying, expiration, type, strike}; this
is the fixed grammar's encoder — underlying letters, two-digit year,
month and day, `C` for calls and `P` for puts, and the strike times 1000
as eight zero-padded digits. -/
def encodeOptionSymbol (c : ParsedOption) : List Char :=
  c.ticker ++ natToPad 2 (c.expYear % 100) ++ natToPad 2 c.expMonth ++
    natToPad 2 c.expDay ++ [if c.option_type = "call" then 'C' else 'P'] ++
    natToPad 8 (c.strike * 1000).num.toNat

/-! ## Probability calculations

`prob_itm` and `prob_profit` (`options_analyzer.py` lines 120-138;
`app.py` lines 108-119 is the same computation) and the per-contract
probability fields derived from them.  The float arithmetic, `np.log`,
`np.sqrt` and `scipy.stats.norm.cdf` are modelled over `ℝ`, with the
standard normal CDF as the CDF of the Gaussian measure. -/

/-- `scipy.stats.norm.cdf`: the standard normal cumulative distribution
function. -/
noncomputable def normCdf (x : ℝ) : ℝ :=
  ProbabilityTheory.cdf (ProbabilityTheory.gaussianReal 0 1) x

/-- Embedding of `prob_itm` (`options_analyzer.py` lines 120-128;
`app.py` lines 108-112 is identical): 0 when `tte ≤ 0` or `iv ≤ 0`,
otherwise the normal CDF of the Black-Scholes `d2` (of `-d2` for
non-calls) as a 0-100 percentage.  `rf` defaults to `0.045` at the call
sites. -/
noncomputable def prob_itm (option_type : String) (spot strike tte iv rf : ℝ) : ℝ :=
  if tte ≤ 0 ∨ iv ≤ 0 then 0
  else
    let d2 := (Real.log (spot / strike) + (rf - 0.5 * iv ^ 2) * tte) /
      (iv * Real.sqrt tte)
    if option_type = "call" then normCdf d2 * 100 else normCdf (-d2) * 100

/-- Embedding of `prob_profit` (`app.py` lines 115-119): 0 when the
premium is nonpositive, else `prob_itm` at the breakeven price.
`options_analyzer.py` lines 131-138 spells the same computation with the
branch on the option type outermost and literal `'call'`/`'put'` type
arguments, which `prob_itm` treats identically. -/
noncomputable def prob_profit (option_type : String)
    (spot strike premium tte iv rf : ℝ) : ℝ :=
  if premium ≤ 0 then 0
  else
    let be := if option_type = "call" then strike + premium else strike - premium
    prob_itm option_type spot be tte iv rf

/-- Python's `round` to an integer: nearest, ties to even (modelled in
exact real arithmetic). -/
noncomputable def pyRound (x : ℝ) : ℝ :=
  if x - ⌊x⌋ < 1 / 2 then ⌊x⌋
  else if 1 / 2 < x - ⌊x⌋ then ⌊x⌋ + 1
  else if Even ⌊x⌋ then (⌊x⌋ : ℝ) else ⌊x⌋ + 1

/-- Python's `round(x, 1)`. -/
noncomputable def pyRound1 (x : ℝ) : ℝ := pyRound (x * 10) / 10

/-- The `probITM` field of a row of `api_options` (`app.py` line 221):
rounded `prob_itm` when the contract's implied vol is positive, else 0. -/
noncomputable def api_options_probITM (otype : String)
    (price strike tte iv_val : ℝ) : ℝ :=
  if iv_val > 0 then pyRound1 (prob_itm otype price strike tte iv_val 0.045) else 0

/-- The `probProfit` field of a row of `api_options` (`app.py` line 222). -/
noncomputable def api_options_probProfit (otype : String)
    (price strike mid tte iv_val : ℝ) : ℝ :=
  if iv_val > 0 ∧ mid > 0 then
    pyRound1 (prob_profit otype price strike mid tte iv_val 0.045)
  else 0

/-- The `probITM` column of `analyze_options` (`options_analyzer.py`
lines 233-238): rounded `prob_itm` when the row's IV percentage is
positive, else `abs(delta) * 100`. -/
noncomputable def analyze_options_probITM (otype : String)
    (current_price strike dte iv delta : ℝ) : ℝ :=
  if iv > 0 then
    pyRound1 (prob_itm otype current_price strike (dte / 365) (iv / 100) 0.045)
  else |delta| * 100

/-- The `probProfit` column of `analyze_options` (`options_analyzer.py`
lines 240-245). -/
noncomputable def analyze_options_probProfit (otype : String)
    (current_price strike mid dte iv : ℝ) : ℝ :=
  if iv > 0 ∧ mid > 0 then
    pyRound1 (prob_profit otype current_price strike mid (dte / 365) (iv / 100) 0.045)
  else 0

/-! ### Helper lemmas about folded min / max -/

theorem listMin_le_self (v : ℚ) (vs : List ℚ) : listMin v vs ≤ v := by
  induction vs generalizing v with
  | nil => exact le_rfl
  | cons x xs ih =>
    calc listMin v (x :: xs) = listMin (min v x) xs := rfl
    _ ≤ min v x := ih _
    _ ≤ v := min_le_left _ _

theorem listMin_le_mem (v x : ℚ) (vs : List ℚ) (hx : x ∈ vs) : listMin v vs ≤ x := by
  induction vs generalizing v with
  | nil => cases hx
  | cons y ys ih =>
    rcases List.mem_cons.mp hx with h | h
    · subst h
      calc listMin v (x :: ys) = listMin (min v x) ys := rfl
      _ ≤ min v x := listMin_le_self _ _
      _ ≤ x := min_le_right _ _
    · exact ih _ h

theorem self_le_listMax (v : ℚ) (vs : List ℚ) : v ≤ listMax v vs := by
  induction vs generalizing v with
  | nil => exact le_rfl
  | cons x xs ih =>
    calc v ≤ max v x := le_max_left _ _
    _ ≤ listMax (max v x) xs := ih _
    _ = listMax v (x :: xs) := rfl

theorem mem_le_listMax (v x : ℚ) (vs : List ℚ) (hx : x ∈ vs) : x ≤ listMax v vs := by
  induction vs generalizing v with
  | nil => cases hx
  | cons y ys ih =>
    rcases List.mem_cons.mp hx with h | h
    · subst h
      calc x ≤ max v x := le_max_right _ _
      _ ≤ listMax (max v x) ys := self_le_listMax _ _
      _ = listMax v (x :: ys) := rfl
    · exact ih _ h

theorem listMin_of_constant (v : ℚ) (vs : List ℚ) (h : ∀ x ∈ vs, x = v) :
    listMin v vs = v := by
  induction vs with
  | nil => rfl
  | cons x xs ih =>
    have hx : x = v := h x (List.mem_cons_self _ _)
    subst hx
    show listMin (min x x) xs = x
    rw [min_self]
    exact ih fun y hy => h y (List.mem_cons_of_mem _ hy)

theorem listMax_of_constant (v : ℚ) (vs : List ℚ) (h : ∀ x ∈ vs, x = v) :
    listMax v vs = v := by
  induction vs with
  | nil => rfl
  | cons x xs ih =>
    have hx : x = v := h x (List.mem_cons_self _ _)
    subst hx
    show listMax (max x x) xs = x
    rw [max_self]
    exact ih fun y hy => h y (List.mem_cons_of_mem _ hy)

theorem listMin_le (v x : ℚ) (vs : List ℚ) (hx : x ∈ v :: vs) : listMin v vs ≤ x := by
  rcases List.mem_cons.mp hx with h | h
  · exact h ▸ listMin_le_self v vs
  · exact listMin_le_mem v x vs h

theorem le_listMax (v x : ℚ) (vs : List ℚ) (hx : x ∈ v :: vs) : x ≤ listMax v vs := by
  rcases List.mem_cons.mp hx with h | h
  · exact h ▸ self_le_listMax v vs
  · exact mem_le_listMax v x vs h

/-! ### Helper lemmas for the option symbol codec -/

theorem digit_char_cases {c : Char} (h : isDigitC c = true) :
    c = '0' ∨ c = '1' ∨ c = '2' ∨ c = '3' ∨ c = '4' ∨
    c = '5' ∨ c = '6' ∨ c = '7' ∨ c = '8' ∨ c = '9' := by
  unfold isDigitC digitVal? at h
  split at h <;> simp_all

theorem valDigit_digitVal {c : Char} (h : isDigitC c = true) :
    valDigit ((digitVal? c).getD 0) = c := by
  rcases digit_char_cases h with rfl | rfl | rfl | rfl | rfl | rfl | rfl | rfl | rfl | rfl <;> rfl

theorem digitValGetD_lt_ten (c : Char) : (digitVal? c).getD 0 < 10 := by
  unfold digitVal?
  split <;> simp

theorem not_upper_of_digit {c : Char} (h : isDigitC c = true) : isUpperC c = false := by
  rcases digit_char_cases h with rfl | rfl | rfl | rfl | rfl | rfl | rfl | rfl | rfl | rfl <;> rfl

theorem digit_ne_newline {c : Char} (h : isDigitC c = true) : c ≠ '\n' := by
  rcases digit_char_cases h with rfl | rfl | rfl | rfl | rfl | rfl | rfl | rfl | rfl | rfl <;>
    decide

theorem digitsVal_append_singleton (ds : List Char) (c : Char) :
    digitsVal (ds ++ [c]) = 10 * digitsVal ds + (digitVal? c).getD 0 := by
  unfold digitsVal
  rw [List.foldl_append]
  rfl

theorem digitsVal_lt (ds : List Char) : digitsVal ds < 10 ^ ds.length := by
  induction ds using List.reverseRecOn with
  | nil => norm_num [digitsVal]
  | append_singleton ds c ih =>
    rw [digitsVal_append_singleton]
    have hd := digitValGetD_lt_ten c
    have hp : (10 : Nat) ^ (ds ++ [c]).length = 10 ^ ds.length * 10 := by
      rw [List.length_append, List.length_singleton, pow_succ]
    omega

theorem natToPad_digitsVal (ds : List Char) (h : ∀ c ∈ ds, isDigitC c = true) :
    natToPad ds.length (digitsVal ds) = ds := by
  induction ds using List.reverseRecOn with
  | nil => rfl
  | append_singleton ds c ih =>
    have hd : (digitVal? c).getD 0 < 10 := digitValGetD_lt_ten c
    have hlen : (ds ++ [c]).length = ds.length + 1 := by simp
    rw [hlen, digitsVal_append_singleton, natToPad]
    have h1 : (10 * digitsVal ds + (digitVal? c).getD 0) / 10 = digitsVal ds := by omega
    have h2 : (10 * digitsVal ds + (digitVal? c).getD 0) % 10 = (digitVal? c).getD 0 := by
      omega
    rw [h1, h2, ih (fun x hx => h x (List.mem_append_left _ hx)),
      valDigit_digitVal (h c (List.mem_append_right _ (List.mem_cons_self _ _)))]

theorem takeWhile_dropWhile_append {p : Char → Bool} (l1 l2 : List Char)
    (h1 : ∀ c ∈ l1, p c = true) (h2 : ∀ c, l2.head? = some c → p c = false) :
    (l1 ++ l2).takeWhile p = l1 ∧ (l1 ++ l2).dropWhile p = l2 := by
  induction l1 with
  | nil =>
    simp only [List.nil_append]
    cases l2 with
    | nil => exact ⟨rfl, rfl⟩
    | cons c t =>
      rw [List.takeWhile_cons, List.dropWhile_cons, h2 c rfl]
      exact ⟨rfl, rfl⟩
  | cons a t ih =>
    have hpa : p a = true := h1 a (List.mem_cons_self _ _)
    obtain ⟨ht, hd⟩ := ih (fun c hc => h1 c (List.mem_cons_of_mem _ hc))
    constructor
    · rw [List.cons_append, List.takeWhile_cons, hpa, if_pos rfl, ht]
    · rw [List.cons_append, List.dropWhile_cons, hpa, if_pos rfl, hd]

/-! ## Claim theorems: IV statistics and regime -/

/-- C5 counterexample: the claim asserts the rank lies in `[0,100]` for
*every* current value once the history has ≥ 2 points; with history values
`{10, 20}` and current value `200` the code returns `1900`. -/
theorem iv_rank_out_of_range_cex :
    calculate_iv_rank 200 [("2024-01-02", 10), ("2024-01-03", 20)] = some 1900 ∧
    ¬((0 : ℚ) ≤ 1900 ∧ (1900 : ℚ) ≤ 100) := by
  constructor
  · norm_num [calculate_iv_rank, listMin, listMax]
  · norm_num

/-- C5 (amended): `calculate_iv_rank` returns `none` on fewer than 2
history rows, returns exactly `50` when all historical values are equal,
and returns a value in `[0,100]` whenever the current value lies between
some pair of historical values (in particular whenever it is itself among
them). -/
theorem iv_rank_amended (current : ℚ) (hist : List IVRow) :
    (hist.length < 2 → calculate_iv_rank current hist = none) ∧
    (2 ≤ hist.length →
      (∀ x ∈ hist.map Prod.snd, ∀ y ∈ hist.map Prod.snd, x = y) →
      calculate_iv_rank current hist = some 50) ∧
    (2 ≤ hist.length →
      (∃ x ∈ hist.map Prod.snd, x ≤ current) →
      (∃ y ∈ hist.map Prod.snd, current ≤ y) →
      ∃ q, calculate_iv_rank current hist = some q ∧ 0 ≤ q ∧ q ≤ 100) := by
  refine ⟨fun h => ?_, fun h hconst => ?_, fun h hlo hhi => ?_⟩
  · unfold calculate_iv_rank
    rw [if_pos h]
  · unfold calculate_iv_rank
    rw [if_neg (by omega)]
    cases hm : hist.map Prod.snd with
    | nil =>
      exfalso
      have := hist.length_map Prod.snd
      rw [hm] at this
      simp at this
      omega
    | cons v vs =>
      have hvs : ∀ x ∈ vs, x = v := by
        intro x hx
        exact hconst x (hm ▸ List.mem_cons_of_mem _ hx) v (hm ▸ List.mem_cons_self _ _)
      show (if listMax v vs = listMin v vs then some 50
        else some ((current - listMin v vs) / (listMax v vs - listMin v vs) * 100)) = some 50
      rw [listMin_of_constant v vs hvs, listMax_of_constant v vs hvs, if_pos rfl]
  · unfold calculate_iv_rank
    rw [if_neg (by omega)]
    cases hm : hist.map Prod.snd with
    | nil =>
      exfalso
      have := hist.length_map Prod.snd
      rw [hm] at this
      simp at this
      omega
    | cons v vs =>
      obtain ⟨x, hxmem, hx⟩ := hlo
      obtain ⟨y, hymem, hy⟩ := hhi
      rw [hm] at hxmem hymem
      have hlo' : listMin v vs ≤ current := (listMin_le v x vs hxmem).trans hx
      have hhi' : current ≤ listMax v vs := hy.trans (le_listMax v y vs hymem)
      show ∃ q, (if listMax v vs = listMin v vs then some 50
        else some ((current - listMin v vs) / (listMax v vs - listMin v vs) * 100)) = some q ∧
        0 ≤ q ∧ q ≤ 100
      by_cases heq : listMax v vs = listMin v vs
      · exact ⟨50, by rw [if_pos heq], by norm_num, by norm_num⟩
      · have hpos : 0 < listMax v vs - listMin v vs := by
          have hle : listMin v vs ≤ listMax v vs := hlo'.trans hhi'
          rcases lt_or_eq_of_le hle with hlt | hq
          · linarith
          · exact absurd hq.symm heq
        refine ⟨(current - listMin v vs) / (listMax v vs - listMin v vs) * 100,
          by rw [if_neg heq], ?_, ?_⟩
        · exact mul_nonneg (div_nonneg (by linarith) (by linarith)) (by norm_num)
        · have h1 : (current - listMin v vs) / (listMax v vs - listMin v vs) ≤ 1 :=
            (div_le_one hpos).mpr (by linarith)
          calc (current - listMin v vs) / (listMax v vs - listMin v vs) * 100
              ≤ 1 * 100 := mul_le_mul_of_nonneg_right h1 (by norm_num)
          _ = 100 := one_mul _

/-- C5 witness: the amended theorem applied at current value `30` and the
two-point history `{20, 40}`. -/
theorem iv_rank_amended_witness :
    ∃ q, calculate_iv_rank 30 [("2024-01-02", 20), ("2024-01-03", 40)] = some q ∧
      0 ≤ q ∧ q ≤ 100 :=
  (iv_rank_amended 30 [("2024-01-02", 20), ("2024-01-03", 40)]).2.2 (by norm_num)
    ⟨20, by norm_num, by norm_num⟩ ⟨40, by norm_num, by norm_num⟩

/-- C6: `calculate_iv_percentile` returns `none` on fewer than 2 history
rows and otherwise the fraction of historical values strictly below the
current value, times 100; on the scenario history `[20,25,30,35,40]` with
current value `30` the percentile is `40` and the rank is `50`. -/
theorem iv_percentile_spec (current : ℚ) (hist : List IVRow) :
    (hist.length < 2 → calculate_iv_percentile current hist = none) ∧
    (2 ≤ hist.length →
      calculate_iv_percentile current hist =
        some ((((hist.map Prod.snd).countP (fun v => v < current) : ℚ) /
          ((hist.map Prod.snd).length : ℚ)) * 100)) ∧
    calculate_iv_percentile 30
      [("d1", 20), ("d2", 25), ("d3", 30), ("d4", 35), ("d5", 40)] = some 40 ∧
    calculate_iv_rank 30
      [("d1", 20), ("d2", 25), ("d3", 30), ("d4", 35), ("d5", 40)] = some 50 := by
  refine ⟨fun h => ?_, fun h => ?_, ?_, ?_⟩
  · unfold calculate_iv_percentile
    rw [if_pos h]
  · unfold calculate_iv_percentile
    rw [if_neg (by omega)]
  · norm_num [calculate_iv_percentile, List.countP, List.countP.go]
  · norm_num [calculate_iv_rank, listMin, listMax]

/-- C6 witness: the percentile formula applied to a concrete 5-row
history with current value 28. -/
theorem iv_percentile_spec_witness :
    calculate_iv_percentile 28
      [("d1", 20), ("d2", 25), ("d3", 30), ("d4", 35), ("d5", 40)] =
      some (((2 : ℚ) / 5) * 100) := by
  rw [(iv_percentile_spec 28
    [("d1", 20), ("d2", 25), ("d3", 30), ("d4", 35), ("d5", 40)]).2.1 (by norm_num)]
  norm_num [List.countP, List.countP.go]

/-- C8: the regime label of `api_signals` is the pure function of the
breadth pair given by the four ordered rules: risk-on breadth > 50 and
risk-off breadth < 50 gives RISK-ON; risk-off breadth > 50 and risk-on
breadth < 50 gives RISK-OFF; both breadths < 40 gives LIQUIDATION; and
every remaining case gives MIXED. -/
theorem regime_label_rules (ro rf : ℚ) :
    (ro > 50 ∧ rf < 50 → regimeLabel ro rf = "RISK-ON") ∧
    (rf > 50 ∧ ro < 50 → regimeLabel ro rf = "RISK-OFF") ∧
    (ro < 40 ∧ rf < 40 → regimeLabel ro rf = "LIQUIDATION") ∧
    (¬(ro > 50 ∧ rf < 50) → ¬(rf > 50 ∧ ro < 50) → ¬(ro < 40 ∧ rf < 40) →
      regimeLabel ro rf = "MIXED") := by
  unfold regimeLabel
  refine ⟨fun h => ?_, fun h => ?_, fun h => ?_, fun h1 h2 h3 => ?_⟩
  · exact if_pos h
  · rw [if_neg (fun hc => by rcases h with ⟨a, b⟩; rcases hc with ⟨c, d⟩; linarith)]
    exact if_pos h
  · rw [if_neg (fun hc => by rcases h with ⟨a, b⟩; rcases hc with ⟨c, d⟩; linarith),
      if_neg (fun hc => by rcases h with ⟨a, b⟩; rcases hc with ⟨c, d⟩; linarith)]
    exact if_pos h
  · rw [if_neg h1, if_neg h2, if_neg h3]

/-- C8 witness: the RISK-ON rule applied at breadth pair (60, 30). -/
theorem regime_label_rules_witness : regimeLabel 60 30 = "RISK-ON" :=
  (regime_label_rules 60 30).1 ⟨by norm_num, by norm_num⟩

/-- C10: the IV statistics duplicated between the two modules are
extensionally equal: `calc_iv_rank` (app.py) agrees with
`calculate_iv_rank` (options_analyzer.py) on every input, and likewise
for the two percentile functions. -/
theorem iv_stats_duplicates_agree (current : ℚ) (hist : List IVRow) :
    calc_iv_rank current hist = calculate_iv_rank current hist ∧
    calc_iv_percentile current hist = calculate_iv_percentile current hist := by
  constructor
  · unfold calc_iv_rank calculate_iv_rank
    by_cases h : hist.length < 2
    · rw [if_pos h, if_pos h]
    · rw [if_neg h, if_neg h]
      cases hist.map Prod.snd with
      | nil => rfl
      | cons v vs =>
        show (if listMax v vs ≠ listMin v vs
            then some ((current - listMin v vs) / (listMax v vs - listMin v vs) * 100)
            else some 50) =
          (if listMax v vs = listMin v vs then some 50
            else some ((current - listMin v vs) / (listMax v vs - listMin v vs) * 100))
        rw [ite_not]
  · rfl

/-- C2: decoding a grammar-conforming identifier — uppercase letters, six
date digits forming a valid `YYMMDD` calendar date, `C` or `P`, eight
strike digits — and re-encoding the parsed fields reproduces the original
identifier character for character. -/
theorem option_symbol_roundtrip (tick d6 d8 : List Char) (cp : Char)
    (htick1 : tick ≠ []) (htick2 : tick.all isUpperC)
    (hd6len : d6.length = 6) (hd6dig : d6.all isDigitC)
    (hcp : cp = 'C' ∨ cp = 'P')
    (hd8len : d8.length = 8) (hd8dig : d8.all isDigitC)
    (hdate : validYMD (digitsVal (d6.take 2)) (digitsVal ((d6.drop 2).take 2))
      (digitsVal (d6.drop 4))) :
    ∃ c, parse_option_symbol (tick ++ (d6 ++ ([cp] ++ d8))) = ParseOutcome.ok c ∧
      encodeOptionSymbol c = tick ++ (d6 ++ ([cp] ++ d8)) := by
  have hd6ne : d6 ≠ [] := by intro h; rw [h] at hd6len; simp at hd6len
  have hd8ne : d8 ≠ [] := by intro h; rw [h] at hd8len; simp at hd8len
  -- the final character is a digit, so the trailing-newline branch is dead
  have hlast : ¬((tick ++ (d6 ++ ([cp] ++ d8))).getLast? = some '\n') := by
    rw [List.getLast?_append_of_ne_nil tick (by simp [hd8ne]),
      List.getLast?_append_of_ne_nil d6 (by simp [hd8ne]),
      List.getLast?_append_of_ne_nil [cp] hd8ne]
    cases hg : d8.getLast? with
    | none => simp
    | some a =>
      have hmem : a ∈ d8 := by
        obtain ⟨hne, ha⟩ := List.mem_getLast?_eq_getLast (by rw [hg]; rfl)
        exact ha ▸ List.getLast_mem hne
      have : a ≠ '\n' :=
        digit_ne_newline (List.all_eq_true.mp hd8dig a hmem)
      simp [this]
  -- the greedy letter prefix is exactly the ticker
  have hsep := takeWhile_dropWhile_append tick (d6 ++ ([cp] ++ d8))
    (List.all_eq_true.mp htick2)
    (by
      intro c hc
      rw [List.head?_append_of_ne_nil d6 hd6ne] at hc
      cases d6 with
      | nil => simp at hc
      | cons a t =>
        rw [List.head?_cons, Option.some_inj] at hc
        exact hc ▸ not_upper_of_digit
          (List.all_eq_true.mp hd6dig a (List.mem_cons_self _ _)))
  -- the 15-character remainder splits back into its three fields
  have htake6 : (d6 ++ ([cp] ++ d8)).take 6 = d6 := by
    rw [← hd6len]
    exact List.take_left _ _
  have hdrop6 : (d6 ++ ([cp] ++ d8)).drop 6 = [cp] ++ d8 := by
    rw [← hd6len]
    exact List.drop_left _ _
  have htake1 : (([cp] ++ d8)).take 1 = [cp] := rfl
  have hdrop7 : (d6 ++ ([cp] ++ d8)).drop 7 = d8 := by
    rw [← List.append_assoc]
    have h7 : (d6 ++ [cp]).length = 7 := by simp [hd6len]
    rw [← h7]
    exact List.drop_left _ _
  have hlen15 : (d6 ++ ([cp] ++ d8)).length = 15 := by simp [hd6len, hd8len]
  have hcpl : ([cp] = ['C'] ∨ [cp] = ['P']) := by
    rcases hcp with rfl | rfl
    · exact Or.inl rfl
    · exact Or.inr rfl
  refine ⟨{ ticker := tick
            expYear := centuryYear (digitsVal (d6.take 2))
            expMonth := digitsVal ((d6.drop 2).take 2)
            expDay := digitsVal (d6.drop 4)
            option_type := if ([cp] : List Char) = ['C'] then "call" else "put"
            strike := (digitsVal d8 : ℚ) / 1000 }, ?_, ?_⟩
  · simp only [parse_option_symbol]
    rw [if_neg hlast, hsep.1, hsep.2, htake6, hdrop6, htake1, hdrop7,
      if_pos ⟨htick1, hlen15, hd6dig, hcpl, hd8dig⟩, if_pos hdate]
  · unfold encodeOptionSymbol
    simp only
    -- year digits
    have hyy : centuryYear (digitsVal (d6.take 2)) % 100 = digitsVal (d6.take 2) := by
      have hlt : digitsVal (d6.take 2) < 100 := by
        have hb := digitsVal_lt (d6.take 2)
        have hl : (d6.take 2).length = 2 := by
          rw [List.length_take, hd6len]
          decide
        rw [hl] at hb
        norm_num at hb
        exact hb
      unfold centuryYear
      split <;> omega
    have h2a : natToPad 2 (digitsVal (d6.take 2)) = d6.take 2 := by
      have hl : (d6.take 2).length = 2 := by
        rw [List.length_take, hd6len]
        decide
      have := natToPad_digitsVal (d6.take 2)
        (fun c hc => List.all_eq_true.mp hd6dig c (List.mem_of_mem_take hc))
      rwa [hl] at this
    have h2b : natToPad 2 (digitsVal ((d6.drop 2).take 2)) = (d6.drop 2).take 2 := by
      have hl : ((d6.drop 2).take 2).length = 2 := by
        rw [List.length_take, List.length_drop, hd6len]
        decide
      have := natToPad_digitsVal ((d6.drop 2).take 2)
        (fun c hc => List.all_eq_true.mp hd6dig c
          (List.mem_of_mem_drop (List.mem_of_mem_take hc)))
      rwa [hl] at this
    have h2c : natToPad 2 (digitsVal (d6.drop 4)) = d6.drop 4 := by
      have hl : (d6.drop 4).length = 2 := by rw [List.length_drop, hd6len]
      have := natToPad_digitsVal (d6.drop 4)
        (fun c hc => List.all_eq_true.mp hd6dig c (List.mem_of_mem_drop hc))
      rwa [hl] at this
    -- the three date fields reassemble into the six date digits
    have hsplit : d6.take 2 ++ ((d6.drop 2).take 2 ++ d6.drop 4) = d6 := by
      have h4 : d6.drop 4 = (d6.drop 2).drop 2 := by rw [List.drop_drop]
      rw [h4, List.take_append_drop, List.take_append_drop]
    -- strike digits survive the division by 1000
    have hstrike : (((digitsVal d8 : ℚ) / 1000 * 1000).num).toNat = digitsVal d8 := by
      rw [div_mul_cancel₀ _ (by norm_num : (1000 : ℚ) ≠ 0), Rat.num_natCast,
        Int.toNat_natCast]
    have hd8pad : natToPad 8 (digitsVal d8) = d8 := by
      have := natToPad_digitsVal d8 (List.all_eq_true.mp hd8dig)
      rwa [hd8len] at this
    have hchar : (if (if ([cp] : List Char) = ['C'] then "call" else "put") = "call"
        then 'C' else 'P') = cp := by
      rcases hcp with rfl | rfl <;> decide
    rw [hyy, h2a, h2b, h2c, hstrike, hd8pad, hchar]
    conv_rhs => rw [← hsplit]
    simp only [List.append_assoc]

/-- C2 witness: the round-trip theorem applied to the spec's scenario
identifier `AAPL260206C00277500`. -/
theorem option_symbol_roundtrip_witness :
    ∃ c, parse_option_symbol "AAPL260206C00277500".toList = ParseOutcome.ok c ∧
      encodeOptionSymbol c = "AAPL260206C00277500".toList := by
  have heq : "AAPL260206C00277500".toList =
      "AAPL".toList ++ ("260206".toList ++ (['C'] ++ "00277500".toList)) := by decide
  rw [heq]
  exact option_symbol_roundtrip "AAPL".toList "260206".toList "00277500".toList 'C'
    (by decide) (by decide) (by decide) (by decide) (Or.inl rfl)
    (by decide) (by decide) (by decide)

/-- C3: the claim that `parse_option_symbol` never raises on any input
fails: `AAPL260231C00277500` matches the regex, but February 31 makes
`datetime.strptime` raise an uncaught `ValueError` instead of the `None`
the contract promises for malformed input. -/
theorem parse_option_symbol_raises_on_invalid_date :
    parse_option_symbol "AAPL260231C00277500".toList = ParseOutcome.exn := by
  decide

/-! ## Claim theorems: probability calculations -/

theorem prob_itm_def (otype : String) (spot strike tte iv rf : ℝ) :
    prob_itm otype spot strike tte iv rf =
      if tte ≤ 0 ∨ iv ≤ 0 then 0
      else if otype = "call" then
        normCdf ((Real.log (spot / strike) + (rf - 0.5 * iv ^ 2) * tte) /
          (iv * Real.sqrt tte)) * 100
      else
        normCdf (-((Real.log (spot / strike) + (rf - 0.5 * iv ^ 2) * tte) /
          (iv * Real.sqrt tte))) * 100 := rfl

/-- C1: `prob_itm` returns 0 when time-to-expiry or implied vol is
nonpositive, and otherwise the standard-normal CDF of
`d2 = (ln(spot/strike) + (r - 0.5·σ²)·t) / (σ·√t)` for calls, of `-d2`
for puts, scaled to a 0-100 percentage. -/
theorem prob_itm_spec (otype : String) (spot strike tte iv rf : ℝ) :
    (tte ≤ 0 ∨ iv ≤ 0 → prob_itm otype spot strike tte iv rf = 0) ∧
    (0 < tte → 0 < iv → otype = "call" →
      prob_itm otype spot strike tte iv rf =
        normCdf ((Real.log (spot / strike) + (rf - 0.5 * iv ^ 2) * tte) /
          (iv * Real.sqrt tte)) * 100) ∧
    (0 < tte → 0 < iv → otype = "put" →
      prob_itm otype spot strike tte iv rf =
        normCdf (-((Real.log (spot / strike) + (rf - 0.5 * iv ^ 2) * tte) /
          (iv * Real.sqrt tte))) * 100) := by
  refine ⟨fun h => ?_, fun h1 h2 h3 => ?_, fun h1 h2 h3 => ?_⟩
  · rw [prob_itm_def, if_pos h]
  · rw [prob_itm_def, if_neg (fun hc => by rcases hc with h | h <;> linarith), h3,
      if_pos rfl]
  · rw [prob_itm_def, if_neg (fun hc => by rcases hc with h | h <;> linarith), h3,
      if_neg (by decide : ¬("put" = "call"))]

/-- C1 witness: zero implied volatility forces a zero probability. -/
theorem prob_itm_spec_witness : prob_itm "call" 100 100 1 0 0.045 = 0 :=
  (prob_itm_spec "call" 100 100 1 0 0.045).1 (Or.inr le_rfl)

/-- C7: holding strike, time-to-expiry, implied vol and rate fixed,
`prob_itm` is non-decreasing in spot for calls and non-increasing in
spot for puts, over positive spots (and positive strike, as the
log-moneyness requires). -/
theorem prob_itm_monotone_in_spot (strike tte iv rf s₁ s₂ : ℝ)
    (hK : 0 < strike) (h1 : 0 < s₁) (h12 : s₁ ≤ s₂) :
    prob_itm "call" s₁ strike tte iv rf ≤ prob_itm "call" s₂ strike tte iv rf ∧
    prob_itm "put" s₂ strike tte iv rf ≤ prob_itm "put" s₁ strike tte iv rf := by
  simp only [prob_itm_def]
  by_cases hg : tte ≤ 0 ∨ iv ≤ 0
  · rw [if_pos hg, if_pos hg, if_pos hg, if_pos hg]
    exact ⟨le_rfl, le_rfl⟩
  · push_neg at hg
    have hg' : ¬(tte ≤ 0 ∨ iv ≤ 0) := fun hc => by
      rcases hc with h | h <;> linarith [hg.1, hg.2]
    have hden : 0 < iv * Real.sqrt tte :=
      mul_pos hg.2 (Real.sqrt_pos.mpr hg.1)
    have hlog : Real.log (s₁ / strike) ≤ Real.log (s₂ / strike) :=
      Real.log_le_log (div_pos h1 hK) ((div_le_div_iff_of_pos_right hK).mpr h12)
    have hd2 : (Real.log (s₁ / strike) + (rf - 0.5 * iv ^ 2) * tte) /
        (iv * Real.sqrt tte) ≤
        (Real.log (s₂ / strike) + (rf - 0.5 * iv ^ 2) * tte) /
        (iv * Real.sqrt tte) :=
      (div_le_div_iff_of_pos_right hden).mpr (add_le_add_right hlog _)
    constructor
    · rw [if_neg hg', if_neg hg']
      simp only [if_true, if_false, eq_self_iff_true, String.reduceEq]
      exact mul_le_mul_of_nonneg_right (ProbabilityTheory.monotone_cdf _ hd2)
        (by norm_num)
    · rw [if_neg hg', if_neg hg']
      simp only [if_true, if_false, eq_self_iff_true, String.reduceEq]
      exact mul_le_mul_of_nonneg_right
        (ProbabilityTheory.monotone_cdf _ (neg_le_neg hd2)) (by norm_num)

/-- C7 witness: the monotonicity theorem applied at strike 1, spots 1
and 2, one year to expiry, unit vol, zero rate. -/
theorem prob_itm_monotone_in_spot_witness :
    prob_itm "call" 1 1 1 1 0 ≤ prob_itm "call" 2 1 1 1 0 ∧
    prob_itm "put" 2 1 1 1 0 ≤ prob_itm "put" 1 1 1 1 0 :=
  prob_itm_monotone_in_spot 1 1 1 0 1 2 one_pos one_pos (by norm_num)

/-- C9: for positive spot and strike (the precondition the logarithm
needs) and any option type, time-to-expiry, implied vol and rate,
`prob_itm` lies in `[0, 100]`. -/
theorem prob_itm_bounded (otype : String) (spot strike tte iv rf : ℝ)
    (hs : 0 < spot) (hK : 0 < strike) :
    0 ≤ prob_itm otype spot strike tte iv rf ∧
    prob_itm otype spot strike tte iv rf ≤ 100 := by
  rw [prob_itm_def]
  by_cases hg : tte ≤ 0 ∨ iv ≤ 0
  · rw [if_pos hg]
    norm_num
  · rw [if_neg hg]
    by_cases hc : otype = "call"
    · rw [if_pos hc]
      constructor
      · exact mul_nonneg (ProbabilityTheory.cdf_nonneg _ _) (by norm_num)
      · calc normCdf _ * 100 ≤ 1 * 100 :=
          mul_le_mul_of_nonneg_right (ProbabilityTheory.cdf_le_one _ _) (by norm_num)
        _ = 100 := one_mul _
    · rw [if_neg hc]
      constructor
      · exact mul_nonneg (ProbabilityTheory.cdf_nonneg _ _) (by norm_num)
      · calc normCdf _ * 100 ≤ 1 * 100 :=
          mul_le_mul_of_nonneg_right (ProbabilityTheory.cdf_le_one _ _) (by norm_num)
        _ = 100 := one_mul _

/-- C9 witness: the bound applied to a concrete put. -/
theorem prob_itm_bounded_witness :
    0 ≤ prob_itm "put" 50 75 2 (1 / 2) (9 / 200) ∧
    prob_itm "put" 50 75 2 (1 / 2) (9 / 200) ≤ 100 :=
  prob_itm_bounded "put" 50 75 2 (1 / 2) (9 / 200) (by norm_num) (by norm_num)

/-- C4 counterexample: in `analyze_options`, a no-vol contract's
`probITM` is `abs(delta) * 100`, not the 0 the claim states — a contract
with `iv = 0` and delta `-0.5` reports `probITM = 50`. -/
theorem analyze_probITM_zero_vol_cex :
    analyze_options_probITM "call" 100 100 30 0 (-(1 / 2)) = 50 ∧
    (50 : ℝ) ≠ 0 := by
  constructor
  · unfold analyze_options_probITM
    rw [if_neg (by norm_num)]
    rw [abs_neg, abs_of_pos (by norm_num : (0 : ℝ) < 1 / 2)]
    norm_num
  · norm_num

/-- C4 (amended): when a contract's implied vol is not positive, both
probability fields of `api_options` (app.py) are 0 and `probProfit` of
`analyze_options` is 0, but `probITM` of `analyze_options` falls back to
`abs(delta) * 100` instead of 0. -/
theorem prob_fields_zero_vol (otype : String)
    (price strike mid tte dte iv delta : ℝ) (h : iv ≤ 0) :
    api_options_probITM otype price strike tte iv = 0 ∧
    api_options_probProfit otype price strike mid tte iv = 0 ∧
    analyze_options_probProfit otype price strike mid dte iv = 0 ∧
    analyze_options_probITM otype price strike dte iv delta = |delta| * 100 := by
  refine ⟨?_, ?_, ?_, ?_⟩
  · unfold api_options_probITM
    rw [if_neg (not_lt.mpr h)]
  · unfold api_options_probProfit
    rw [if_neg (fun hc => absurd hc.1 (not_lt.mpr h))]
  · unfold analyze_options_probProfit
    rw [if_neg (fun hc => absurd hc.1 (not_lt.mpr h))]
  · unfold analyze_options_probITM
    rw [if_neg (not_lt.mpr h)]

/-- C4 witness: the zero-vol field values at a concrete contract. -/
theorem prob_fields_zero_vol_witness :
    api_options_probITM "call" 100 95 (30 / 365) 0 = 0 ∧
    api_options_probProfit "call" 100 95 2 (30 / 365) 0 = 0 ∧
    analyze_options_probProfit "call" 100 95 2 30 0 = 0 ∧
    analyze_options_probITM "call" 100 95 30 0 (3 / 5) = |(3 / 5 : ℝ)| * 100 :=
  prob_fields_zero_vol "call" 100 95 2 (30 / 365) 30 0 (3 / 5) le_rfl

end ETFDash
